import Mathlib

/-!
Shallow embedding of the ThenFail v0.3 core promise engine
(src/thenfail.ts) and verification of its specified properties.

The engine is a heap of promise records (`World.promises`, a promise
object is identified by its index) together with the FIFO queue of
deferred handler invocations created by `setImmediate`
(`World.tasks`).  `World.log` is a ghost field recording, in order,
each handler invocation together with its argument; the engine code
never reads it.

JavaScript values relevant to the resolution procedure are modelled by
`JSValue`: plain primitives, `Error`-like objects without a callable
`then`, references to engine promises (`promiseRef`, reference
identity is index equality), and foreign objects (`obj`).  A foreign
object is classified by what its `then` member does when obtained and
invoked: absent/non-callable, getter throws, or a callable running a
finite list of synchronous callback invocations and afterwards
optionally throwing.

Handlers are shallow: a handler is any Lean function from the argument
value to `Except JSValue JSValue`; `.error e` models a thrown `e`,
`.ok v` a normal return of `v`.

The mutually recursive `_relay`/`_grab` cascade of the source settles
one pending promise per recursive layer, so a fuel parameter bounded
by the number of promises in the heap plus one is always sufficient;
entry points pass `w.promises.length + 1`.
-/

namespace ThenFail

/-- Possible states of a promise (const enum `State` in the source). -/
inductive State where
  | pending
  | fulfilled
  | rejected
deriving DecidableEq, Repr

/-- A settled (non-pending) state.  `_grab` and `_relay` are only ever
invoked with the state of an already settled predecessor, which this
type records. -/
inductive Settled where
  | fulfilled
  | rejected
deriving DecidableEq, Repr

def Settled.toState : Settled → State
  | .fulfilled => .fulfilled
  | .rejected => .rejected

mutual
/-- JavaScript values as seen by the resolution procedure `_unpack`. -/
inductive JSValue where
  | undef
  | num (n : Int)
  | str (s : String)
  /-- An `Error`-like object: truthy, of object type, with no callable
  `then` member (e.g. the `TypeError` synthesized on self-resolution). -/
  | err (msg : String)
  /-- A reference to an engine promise; `id` is its heap index and
  reference identity is index equality. -/
  | promiseRef (id : Nat)
  /-- A foreign (non-engine) object or function value. -/
  | obj (o : JSObj)

/-- Behaviour of a foreign object under the structural `then` probe of
the resolution procedure. -/
inductive JSObj where
  /-- The object has no callable `then` member. -/
  | noThen
  /-- Obtaining the `then` member throws `e`. -/
  | thenGetterThrows (e : JSValue)
  /-- The `then` member is callable: invoked with the two callbacks it
  performs `actions` in order and afterwards throws `afterThrow` when
  that is `some`. -/
  | thenFn (actions : List ThenAction) (afterThrow : Option JSValue)

/-- A single synchronous callback invocation performed by a foreign
`then` member. -/
inductive ThenAction where
  | callResolve (v : JSValue)
  | callReject (r : JSValue)
end

/-- A handler passed to `then`: throws (`.error`) or returns (`.ok`). -/
def Handler : Type := JSValue → Except JSValue JSValue

instance : Inhabited Handler := ⟨fun _ => .ok .undef⟩

/-- An argument of the `then` method: either an invocable function or
any non-invocable value (the source tests whether the typeof of the
argument is the string function). -/
inductive ThenArg where
  | fn (h : Handler)
  | notFn (v : JSValue)

/-- The fields of one `Promise` object of the source. -/
structure PromiseRec where
  state : State
  running : Bool
  valueOrReason : JSValue
  chainedPromise : Option Nat
  chainedPromises : Option (List Nat)
  handledPromise : Option Nat
  handledPromises : Option (List Nat)
  onPreviousFulfilled : Option Handler
  onPreviousRejected : Option Handler

/-- A deferred handler invocation queued by `setImmediate` in `_run`. -/
structure Task where
  target : Nat
  handler : Handler
  arg : JSValue

/-- The whole engine state: heap of promises, FIFO task queue, and the
ghost log of handler invocations. -/
structure World where
  promises : List PromiseRec
  tasks : List Task
  log : List (Nat × JSValue)

/-- A freshly constructed promise (`new Promise()`). -/
def freshRec : PromiseRec :=
  { state := .pending, running := false, valueOrReason := .undef,
    chainedPromise := none, chainedPromises := none,
    handledPromise := none, handledPromises := none,
    onPreviousFulfilled := none, onPreviousRejected := none }

def setPromise (w : World) (p : Nat) (r : PromiseRec) : World :=
  { w with promises := w.promises.set p r }

def stateOf (w : World) (p : Nat) : Option State :=
  (w.promises[p]?).map PromiseRec.state

def valOf (w : World) (p : Nat) : Option JSValue :=
  (w.promises[p]?).map PromiseRec.valueOrReason

/-- State and result of a promise together. -/
def stateValAt (w : World) (p : Nat) : Option (State × JSValue) :=
  (w.promises[p]?).map (fun r => (r.state, r.valueOrReason))

/-- The reason synthesized when a promise is resolved with itself. -/
def selfResolutionError : JSValue := .err ("The promise should not return itself")

/-- Model of `_run`: mark the promise running and enqueue the handler invocation
(the body of the `setImmediate` callback is executed by `runTask`). -/
def run (p : Nat) (h : Handler) (v : JSValue) (w : World) : World :=
  match w.promises[p]? with
  | none => w
  | some pr =>
    let w1 := setPromise w p { pr with running := true }
    { w1 with tasks := w1.tasks ++ [⟨p, h, v⟩] }

/-- Registration of `selfId` into the `_handledPromise(s)` slots of
`target` (the pending-promise branch of `_unpack`). -/
def registerHandled (target selfId : Nat) (w : World) : World :=
  match w.promises[target]? with
  | none => w
  | some pr =>
    match pr.handledPromise with
    | some q =>
      setPromise w target
        { pr with handledPromise := none, handledPromises := some [q, selfId] }
    | none =>
      match pr.handledPromises with
      | some qs =>
        setPromise w target { pr with handledPromises := some (qs ++ [selfId]) }
      | none =>
        setPromise w target { pr with handledPromise := some selfId }

mutual
/-- Model of `_grab`: take the settled predecessor state; run the matching
handler if there is one, otherwise relay the state through unchanged. -/
def grab (fuel : Nat) (p : Nat) (s : Settled) (v : JSValue) (w : World) : World :=
  match w.promises[p]? with
  | none => w
  | some pr =>
    if pr.state ≠ State.pending then w
    else
      let handler := match s with
        | .fulfilled => pr.onPreviousFulfilled
        | .rejected => pr.onPreviousRejected
      match handler with
      | some h => run p h v w
      | none => relay fuel p s v w
termination_by (fuel, 1, 0)

/-- Model of `_relay`: the one-time pending-to-terminal transition.  Records the
state/result, grabs every chained promise, relays to every handled
(adopting) promise, then clears all registration fields.  Nothing in
the cascade can write the slot fields of `p` (a nested `_relay`/`_grab`
on `p` stops at the settled-state check), so reading them from the
snapshot `rec` agrees with the field reads of the source. -/
def relay (fuel : Nat) (p : Nat) (s : Settled) (v : JSValue) (w : World) : World :=
  match w.promises[p]? with
  | none => w
  | some pr =>
    if pr.state ≠ State.pending then w
    else
      match fuel with
      | 0 => w
      | f + 1 =>
        let w1 := setPromise w p { pr with state := s.toState, valueOrReason := v }
        let w2 :=
          match pr.chainedPromise with
          | some c => grab f c s v w1
          | none =>
            match pr.chainedPromises with
            | some cs => grabList f cs s v w1
            | none => w1
        let w3 :=
          match pr.handledPromise with
          | some q => relay f q s v w2
          | none =>
            match pr.handledPromises with
            | some qs => relayList f qs s v w2
            | none => w2
        setPromise w3 p
          { pr with
            state := s.toState, valueOrReason := v,
            onPreviousFulfilled := none, onPreviousRejected := none,
            chainedPromise := none,
            chainedPromises := if pr.chainedPromise.isSome then pr.chainedPromises else none,
            handledPromise := none,
            handledPromises := if pr.handledPromise.isSome then pr.handledPromises else none }
termination_by (fuel, 0, 0)

/-- The `for (let promise of this._chainedPromises)` loop of `_relay`. -/
def grabList (fuel : Nat) (cs : List Nat) (s : Settled) (v : JSValue) (w : World) : World :=
  match cs with
  | [] => w
  | c :: rest => grabList fuel rest s v (grab fuel c s v w)
termination_by (fuel, 2, cs.length)

/-- The `for (let promise of this._handledPromises)` loop of `_relay`. -/
def relayList (fuel : Nat) (qs : List Nat) (s : Settled) (v : JSValue) (w : World) : World :=
  match qs with
  | [] => w
  | q :: rest => relayList fuel rest s v (relay fuel q s v w)
termination_by (fuel, 2, qs.length)
end

/-- The type of the delivery continuation (`callback`) of `_unpack`. -/
abbrev Cont : Type := Settled → JSValue → World → World

mutual
/-- Model of `_unpack`: the Promises/A+ resolution procedure.  Decides what
terminal outcome the value `value` implies for the promise `selfId`
and hands it to `k` (at most once per guard level), or registers
`selfId` as an adopter of a still-pending engine promise. -/
def unpack (selfId : Nat) (v : JSValue) (k : Cont) (w : World) : World :=
  match v with
  | .promiseRef id =>
    if id = selfId then k .rejected selfResolutionError w
    else
      match w.promises[id]? with
      | none => w
      | some pr =>
        match pr.state with
        | .pending => registerHandled id selfId w
        | .fulfilled => k .fulfilled pr.valueOrReason w
        | .rejected => k .rejected pr.valueOrReason w
  | .obj o =>
    match o with
    | .noThen => k .fulfilled (.obj .noThen) w
    | .thenGetterThrows e => k .rejected e w
    | .thenFn acts afterThrow =>
      let r := runActions selfId acts true k w
      match afterThrow with
      | some e => if r.1 then k .rejected e r.2 else r.2
      | none => r.2
  | .undef => k .fulfilled .undef w
  | .num n => k .fulfilled (.num n) w
  | .str s => k .fulfilled (.str s) w
  | .err m => k .fulfilled (.err m) w
termination_by sizeOf v

/-- The callbacks handed to a foreign `then`: `armed` is the shared
`callback`-variable guard, cleared by the first effective invocation;
later invocations (and a trailing throw) are then ignored.  Returns
the guard state together with the resulting world. -/
def runActions (selfId : Nat) (acts : List ThenAction) (armed : Bool) (k : Cont)
    (w : World) : Bool × World :=
  match acts with
  | [] => (armed, w)
  | .callResolve v :: rest =>
    if armed then runActions selfId rest false k (unpack selfId v k w)
    else runActions selfId rest armed k w
  | .callReject r :: rest =>
    if armed then runActions selfId rest false k (k .rejected r w)
    else runActions selfId rest armed k w
termination_by sizeOf acts
end

/-- The continuation of the instance method `resolve`. -/
def resolveCont (p : Nat) : Cont :=
  fun s u w => grab (w.promises.length + 1) p s u w

/-- Instance method `resolve(value)`. -/
def resolve (w : World) (p : Nat) (v : JSValue) : World :=
  unpack p v (resolveCont p) w

/-- Instance method `reject(reason)`. -/
def reject (w : World) (p : Nat) (r : JSValue) : World :=
  grab (w.promises.length + 1) p .rejected r w

/-- The `then` method: create the successor promise, store the
invocable handlers on it, and either queue it on a pending receiver or
grab the settled state of the receiver immediately.  Returns the new
world together with the index of the successor. -/
def thenOp (w : World) (src : Nat) (onf onr : ThenArg) : World × Nat :=
  let pid := w.promises.length
  let nrec : PromiseRec :=
    { freshRec with
      onPreviousFulfilled := match onf with | .fn h => some h | .notFn _ => none,
      onPreviousRejected := match onr with | .fn h => some h | .notFn _ => none }
  let w1 : World := { w with promises := w.promises ++ [nrec] }
  match w1.promises[src]? with
  | none => (w1, pid)
  | some spr =>
    if spr.state = State.pending then
      match spr.chainedPromise with
      | some c =>
        (setPromise w1 src
          { spr with chainedPromise := none, chainedPromises := some [c, pid] }, pid)
      | none =>
        match spr.chainedPromises with
        | some cs =>
          (setPromise w1 src { spr with chainedPromises := some (cs ++ [pid]) }, pid)
        | none =>
          (setPromise w1 src { spr with chainedPromise := some pid }, pid)
    else
      match spr.state with
      | .pending => (w1, pid)
      | .fulfilled => (grab (w1.promises.length + 1) pid .fulfilled spr.valueOrReason w1, pid)
      | .rejected => (grab (w1.promises.length + 1) pid .rejected spr.valueOrReason w1, pid)

/-- Model of the field write that sets the running flag back to false. -/
def clearRunning (p : Nat) (w : World) : World :=
  match w.promises[p]? with
  | none => w
  | some pr => setPromise w p { pr with running := false }

/-- The delivery continuation used inside the `setImmediate` body of
`_run`: relay, then clear the running flag. -/
def runCont (p : Nat) : Cont :=
  fun s u w => clearRunning p (relay (w.promises.length + 1) p s u w)

/-- Execute the front task of the queue: the body of the `setImmediate`
callback of `_run`.  Invokes the handler (recording the invocation in
the ghost log); a thrown value is relayed as a rejection, a returned
value goes through the resolution procedure. -/
def runTask (w : World) : World :=
  match w.tasks with
  | [] => w
  | t :: rest =>
    let w1 : World := { w with tasks := rest, log := w.log ++ [(t.target, t.arg)] }
    match t.handler t.arg with
    | .error e => clearRunning t.target (relay (w1.promises.length + 1) t.target .rejected e w1)
    | .ok ret => unpack t.target ret (runCont t.target) w1

/-- Execute `n` front tasks. -/
def drain : Nat → World → World
  | 0, w => w
  | n + 1, w => drain n (runTask w)

/-- Attach a list of fulfillment handlers via successive `then` calls;
returns the resulting world and the successor indices in attachment
order. -/
def attachAll (w : World) (src : Nat) (hs : List Handler) : World × List Nat :=
  match hs with
  | [] => (w, [])
  | h :: rest =>
    let r := thenOp w src (.fn h) (.notFn .undef)
    let r2 := attachAll r.1 src rest
    (r2.1, r.2 :: r2.2)

/-!  ### Auxiliary predicates for the engine lemmas  -/

/-- Frame property of one engine step: going from `w` to `w'` only
appends to the task queue, never touches the ghost log, preserves the
number of promises, and preserves the state and result of every
already settled promise. -/
def TameStep (w w' : World) : Prop :=
  (∃ ts, w'.tasks = w.tasks ++ ts) ∧ w'.log = w.log ∧
  w'.promises.length = w.promises.length ∧
  ∀ p st u, st ≠ State.pending → stateValAt w p = some (st, u) →
    stateValAt w' p = some (st, u)

/-- Frame property of one engine step at every world. -/
def Tame (g : World → World) : Prop := ∀ w, TameStep w (g w)

/-!  ### Concrete worlds used by witnesses and counterexamples  -/

/-- A world with a single freshly constructed promise. -/
def oneFresh : World := ⟨[freshRec], [], []⟩

/-- A world with a single promise already fulfilled with `42 - 37 = 5`;
more precisely, fulfilled with the number `5`. -/
def fulfilled5World : World :=
  ⟨[{ freshRec with state := .fulfilled, valueOrReason := .num 5 }], [], []⟩

/-- A world with a single pending promise carrying a rejection handler
(as produced by a `then` call registering `onrejected`); the handler
returns the number `42`. -/
def rejHandlerWorld : World :=
  ⟨[{ freshRec with onPreviousRejected := some (fun _ => .ok (.num 42)) }], [], []⟩

/-- A world with two freshly constructed promises. -/
def twoFresh : World := ⟨[freshRec, freshRec], [], []⟩

/-- A world with three freshly constructed promises (used for the
transitive-adoption scenario). -/
def adoptBase : World := ⟨[freshRec, freshRec, freshRec], [], []⟩

/-!  ### Characterization of worlds built by repeated `then` calls  -/

/-- A dependent promise as created by `then` with only a fulfillment
handler. -/
def depRec (h : Handler) : PromiseRec := { freshRec with onPreviousFulfilled := some h }

/-- The `_chainedPromise` slot representing the abstract successor
list `l` (the one-successor case uses the single slot). -/
def chainedSingle (l : List Nat) : Option Nat :=
  match l with
  | [c] => some c
  | _ => none

/-- The `_chainedPromises` slot representing the abstract successor
list `l`. -/
def chainedMany (l : List Nat) : Option (List Nat) :=
  match l with
  | [] => none
  | [_] => none
  | l => some l

/-- A pending promise whose successor slots represent the list `l`. -/
def chainRec (l : List Nat) : PromiseRec :=
  { freshRec with chainedPromise := chainedSingle l, chainedPromises := chainedMany l }

/-- The world reached from a single fresh promise after attaching the
fulfillment handlers `hs` one `then` call at a time: the source at
index 0 carries the successor indices `1..hs.length` in its slots, and
index `i + 1` holds the dependent created for the `i`-th handler. -/
def attachedWorld (hs : List Handler) : World :=
  ⟨chainRec (List.range' 1 hs.length) :: hs.map depRec, [], []⟩

/-!  ## Basic lemmas  -/

@[simp] theorem Settled.toState_fulfilled : Settled.fulfilled.toState = State.fulfilled := rfl

@[simp] theorem Settled.toState_rejected : Settled.rejected.toState = State.rejected := rfl

theorem Settled.toState_ne_pending (s : Settled) : s.toState ≠ State.pending := by
  cases s <;> simp

theorem lt_length_of_lookup {w : World} {p : Nat} {pr : PromiseRec}
    (hl : w.promises[p]? = some pr) : p < w.promises.length := by
  by_contra hge
  rw [List.getElem?_eq_none (by omega)] at hl
  exact Option.noConfusion hl

theorem stateValAt_set_ne (w : World) (p q : Nat) (r : PromiseRec) (h : p ≠ q) :
    stateValAt (setPromise w p r) q = stateValAt w q := by
  simp [stateValAt, setPromise, List.getElem?_set_ne h]

theorem stateValAt_set_self {w : World} {p : Nat} {pr : PromiseRec} (r : PromiseRec)
    (hl : w.promises[p]? = some pr) :
    stateValAt (setPromise w p r) p = some (r.state, r.valueOrReason) := by
  have := lt_length_of_lookup hl
  simp [stateValAt, setPromise, List.getElem?_set, this]

theorem stateValAt_set_same {w : World} {p : Nat} {pr pr' : PromiseRec}
    (hl : w.promises[p]? = some pr) (hs : pr'.state = pr.state)
    (hv : pr'.valueOrReason = pr.valueOrReason) (q : Nat) :
    stateValAt (setPromise w p pr') q = stateValAt w q := by
  by_cases hq : p = q
  · subst hq
    rw [stateValAt_set_self pr' hl, hs, hv]
    simp [stateValAt, hl]
  · exact stateValAt_set_ne w p q pr' hq

theorem stateValAt_lookup {w : World} {p : Nat} {pr : PromiseRec}
    (hl : w.promises[p]? = some pr) :
    stateValAt w p = some (pr.state, pr.valueOrReason) := by
  simp [stateValAt, hl]

/-!  ## Frame lemmas (`TameStep`) -/

theorem TameStep.refl (w : World) : TameStep w w :=
  ⟨⟨[], by simp⟩, rfl, rfl, fun _ _ _ _ h => h⟩

theorem TameStep.of_eq {w w' : World} (h : w' = w) : TameStep w w' := h ▸ TameStep.refl w

theorem TameStep.trans {w w' w'' : World}
    (h1 : TameStep w w') (h2 : TameStep w' w'') : TameStep w w'' := by
  obtain ⟨⟨ts1, ht1⟩, hl1, hn1, hs1⟩ := h1
  obtain ⟨⟨ts2, ht2⟩, hl2, hn2, hs2⟩ := h2
  refine ⟨⟨ts1 ++ ts2, ?_⟩, ?_, ?_, ?_⟩
  · rw [ht2, ht1, List.append_assoc]
  · rw [hl2, hl1]
  · rw [hn2, hn1]
  · intro p st u hst hw
    exact hs2 p st u hst (hs1 p st u hst hw)

theorem tameStep_set_same {w : World} {p : Nat} {pr : PromiseRec} (pr' : PromiseRec)
    (hl : w.promises[p]? = some pr) (hs : pr'.state = pr.state)
    (hv : pr'.valueOrReason = pr.valueOrReason) :
    TameStep w (setPromise w p pr') := by
  refine ⟨⟨[], by simp [setPromise]⟩, by simp [setPromise], by simp [setPromise], ?_⟩
  intro q st u _ hw
  rw [stateValAt_set_same hl hs hv q]
  exact hw

theorem tame_run (p : Nat) (h : Handler) (v : JSValue) : Tame (run p h v) := by
  intro w
  rcases hl : w.promises[p]? with _ | pr
  · exact TameStep.of_eq (by simp [run, hl])
  · have heq : run p h v w =
        { setPromise w p { pr with running := true } with
          tasks := w.tasks ++ [⟨p, h, v⟩] } := by
      simp [run, hl, setPromise]
    rw [heq]
    have hset := tameStep_set_same { pr with running := true } hl rfl rfl
    obtain ⟨_, hlog, hlen, hsv⟩ := hset
    refine ⟨⟨[⟨p, h, v⟩], by simp [setPromise]⟩, by simp [setPromise],
      by simp [setPromise], ?_⟩
    intro q st u hst hw
    have := hsv q st u hst hw
    simpa [stateValAt] using this

theorem tame_registerHandled (target selfId : Nat) : Tame (registerHandled target selfId) := by
  intro w
  rcases hl : w.promises[target]? with _ | pr
  · exact TameStep.of_eq (by simp [registerHandled, hl])
  · rcases hhp : pr.handledPromise with _ | q
    · rcases hhps : pr.handledPromises with _ | qs
      · have := tameStep_set_same { pr with handledPromise := some selfId } hl rfl rfl
        have heq : registerHandled target selfId w
            = setPromise w target { pr with handledPromise := some selfId } := by
          simp [registerHandled, hl, hhp, hhps]
        rw [heq]
        exact this
      · have := tameStep_set_same
          { pr with handledPromises := some (qs ++ [selfId]) } hl rfl rfl
        have heq : registerHandled target selfId w
            = setPromise w target { pr with handledPromises := some (qs ++ [selfId]) } := by
          simp [registerHandled, hl, hhp, hhps]
        rw [heq]
        exact this
    · have := tameStep_set_same
        { pr with handledPromise := none, handledPromises := some [q, selfId] } hl rfl rfl
      have heq : registerHandled target selfId w
          = setPromise w target
              { pr with handledPromise := none, handledPromises := some [q, selfId] } := by
        simp [registerHandled, hl, hhp]
      rw [heq]
      exact this

theorem tame_clearRunning (p : Nat) : Tame (clearRunning p) := by
  intro w
  rcases hl : w.promises[p]? with _ | pr
  · exact TameStep.of_eq (by simp [clearRunning, hl])
  · have := tameStep_set_same { pr with running := false } hl rfl rfl
    have heq : clearRunning p w = setPromise w p { pr with running := false } := by
      simp [clearRunning, hl]
    rw [heq]
    exact this

theorem relay_zero (p : Nat) (s : Settled) (v : JSValue) (w : World) :
    relay 0 p s v w = w := by
  rw [relay]
  rcases w.promises[p]? with _ | pr
  · rfl
  · dsimp only
    split <;> rfl

theorem grab_none {fuel p s v} {w : World} (hl : w.promises[p]? = none) :
    grab fuel p s v w = w := by
  rw [grab, hl]

theorem relay_none {fuel p s v} {w : World} (hl : w.promises[p]? = none) :
    relay fuel p s v w = w := by
  rw [relay, hl]

theorem grab_settled {fuel p s v} {w : World} {pr : PromiseRec}
    (hl : w.promises[p]? = some pr) (hst : pr.state ≠ State.pending) :
    grab fuel p s v w = w := by
  rw [grab, hl]
  simp [hst]

theorem relay_settled {fuel p s v} {w : World} {pr : PromiseRec}
    (hl : w.promises[p]? = some pr) (hst : pr.state ≠ State.pending) :
    relay fuel p s v w = w := by
  rw [relay, hl]
  simp [hst]

/-- Unfolding of `grab` on a pending promise with a matching handler. -/
theorem grab_pending_handler {fuel p s v} {w : World} {pr : PromiseRec} {h : Handler}
    (hl : w.promises[p]? = some pr) (hst : pr.state = State.pending)
    (hh : (match s with
           | .fulfilled => pr.onPreviousFulfilled
           | .rejected => pr.onPreviousRejected) = some h) :
    grab fuel p s v w = run p h v w := by
  rw [grab, hl]
  simp [hst, hh]

/-- Unfolding of `grab` on a pending promise without a matching handler. -/
theorem grab_pending_noHandler {fuel p s v} {w : World} {pr : PromiseRec}
    (hl : w.promises[p]? = some pr) (hst : pr.state = State.pending)
    (hh : (match s with
           | .fulfilled => pr.onPreviousFulfilled
           | .rejected => pr.onPreviousRejected) = none) :
    grab fuel p s v w = relay fuel p s v w := by
  rw [grab, hl]
  simp [hst, hh]

/-- Unfolding of `relay` on a pending promise with fuel available. -/
theorem relay_pending_succ {f p s v} {w : World} {pr : PromiseRec}
    (hl : w.promises[p]? = some pr) (hst : pr.state = State.pending) :
    relay (f + 1) p s v w =
      (let w1 := setPromise w p { pr with state := s.toState, valueOrReason := v }
       let w2 :=
         match pr.chainedPromise with
         | some c => grab f c s v w1
         | none =>
           match pr.chainedPromises with
           | some cs => grabList f cs s v w1
           | none => w1
       let w3 :=
         match pr.handledPromise with
         | some q => relay f q s v w2
         | none =>
           match pr.handledPromises with
           | some qs => relayList f qs s v w2
           | none => w2
       setPromise w3 p
         { pr with
           state := s.toState, valueOrReason := v,
           onPreviousFulfilled := none, onPreviousRejected := none,
           chainedPromise := none,
           chainedPromises := if pr.chainedPromise.isSome then pr.chainedPromises else none,
           handledPromise := none,
           handledPromises := if pr.handledPromise.isSome then pr.handledPromises else none }) := by
  conv_lhs => rw [relay]
  rw [hl]
  simp [hst]

theorem grabList_nil (fuel s v) (w : World) : grabList fuel [] s v w = w := by
  rw [grabList]

theorem grabList_cons (fuel c rest s v) (w : World) :
    grabList fuel (c :: rest) s v w = grabList fuel rest s v (grab fuel c s v w) := by
  rw [grabList]

theorem relayList_nil (fuel s v) (w : World) : relayList fuel [] s v w = w := by
  rw [relayList]

theorem relayList_cons (fuel q rest s v) (w : World) :
    relayList fuel (q :: rest) s v w = relayList fuel rest s v (relay fuel q s v w) := by
  rw [relayList]

theorem tame_grabList_of {fuel s v} (hg : ∀ c, Tame (grab fuel c s v)) :
    ∀ cs, Tame (fun w => grabList fuel cs s v w) := by
  intro cs
  induction cs with
  | nil => intro w; exact TameStep.of_eq (grabList_nil ..)
  | cons c rest ih =>
    intro w
    show TameStep w (grabList fuel (c :: rest) s v w)
    rw [grabList_cons]
    exact TameStep.trans (hg c w) (ih _)

theorem tame_relayList_of {fuel s v} (hr : ∀ q, Tame (relay fuel q s v)) :
    ∀ qs, Tame (fun w => relayList fuel qs s v w) := by
  intro qs
  induction qs with
  | nil => intro w; exact TameStep.of_eq (relayList_nil ..)
  | cons q rest ih =>
    intro w
    show TameStep w (relayList fuel (q :: rest) s v w)
    rw [relayList_cons]
    exact TameStep.trans (hr q w) (ih _)

theorem lookup_of_stateValAt {w : World} {p : Nat} {st : State} {u : JSValue}
    (h : stateValAt w p = some (st, u)) :
    ∃ pr, w.promises[p]? = some pr ∧ pr.state = st ∧ pr.valueOrReason = u := by
  rcases hl : w.promises[p]? with _ | pr
  · rw [stateValAt, hl] at h
    exact Option.noConfusion h
  · refine ⟨pr, rfl, ?_, ?_⟩ <;>
    · rw [stateValAt, hl] at h
      simp at h
      simp [h]

/-- Frame property of the chained-promises phase of `_relay`. -/
theorem tameStep_chainPhase (f : Nat) (s : Settled) (v : JSValue)
    (c? : Option Nat) (cs? : Option (List Nat)) (w1 : World)
    (hg : ∀ p, Tame (grab f p s v)) :
    TameStep w1
      (match c? with
       | some c => grab f c s v w1
       | none =>
         match cs? with
         | some cs => grabList f cs s v w1
         | none => w1) := by
  rcases c? with _ | c
  · rcases cs? with _ | cs
    · exact TameStep.refl w1
    · exact tame_grabList_of hg cs w1
  · exact hg c w1

/-- Frame property of the handled-promises phase of `_relay`. -/
theorem tameStep_handledPhase (f : Nat) (s : Settled) (v : JSValue)
    (q? : Option Nat) (qs? : Option (List Nat)) (w2 : World)
    (hr : ∀ p, Tame (relay f p s v)) :
    TameStep w2
      (match q? with
       | some q => relay f q s v w2
       | none =>
         match qs? with
         | some qs => relayList f qs s v w2
         | none => w2) := by
  rcases q? with _ | q
  · rcases qs? with _ | qs
    · exact TameStep.refl w2
    · exact tame_relayList_of hr qs w2
  · exact hr q w2

theorem tame_grab_of {fuel : Nat} (hrel : ∀ p s v, Tame (relay fuel p s v)) :
    ∀ p s v, Tame (grab fuel p s v) := by
  intro p s v w
  rcases hl : w.promises[p]? with _ | pr
  · exact TameStep.of_eq (grab_none hl)
  · by_cases hst : pr.state = State.pending
    · rcases hh : (match s with
        | .fulfilled => pr.onPreviousFulfilled
        | .rejected => pr.onPreviousRejected) with _ | h
      · rw [grab_pending_noHandler hl hst hh]
        exact hrel p s v w
      · rw [grab_pending_handler hl hst hh]
        exact tame_run p h v w
    · exact TameStep.of_eq (grab_settled hl hst)

/-- The relay cascade and the grab step satisfy the frame property at
every fuel level. -/
theorem tame_relay_grab :
    ∀ fuel, (∀ p s v, Tame (relay fuel p s v)) ∧ (∀ p s v, Tame (grab fuel p s v)) := by
  intro fuel
  induction fuel with
  | zero =>
    have hrel : ∀ p s v, Tame (relay 0 p s v) := fun p s v w =>
      TameStep.of_eq (relay_zero ..)
    exact ⟨hrel, tame_grab_of hrel⟩
  | succ f ih =>
    have hrel : ∀ p s v, Tame (relay (f + 1) p s v) := by
      intro p s v w
      rcases hl : w.promises[p]? with _ | pr
      · exact TameStep.of_eq (relay_none hl)
      · by_cases hst : pr.state = State.pending
        · -- the working case: settle `p`, run both phases, clear fields
          rw [relay_pending_succ hl hst]
          dsimp only
          set W1 := setPromise w p { pr with state := s.toState, valueOrReason := v }
            with hW1def
          set W2 := (match pr.chainedPromise with
            | some c => grab f c s v W1
            | none =>
              match pr.chainedPromises with
              | some cs => grabList f cs s v W1
              | none => W1) with hW2def
          set W3 := (match pr.handledPromise with
            | some q => relay f q s v W2
            | none =>
              match pr.handledPromises with
              | some qs => relayList f qs s v W2
              | none => W2) with hW3def
          have t1 : TameStep w W1 := by
            rw [hW1def]
            refine ⟨⟨[], by simp [setPromise]⟩, by simp [setPromise],
              by simp [setPromise], ?_⟩
            intro q st u hstq hw
            by_cases hq : p = q
            · subst hq
              rw [stateValAt_lookup hl] at hw
              simp at hw
              exact absurd (hw.1 ▸ hst) hstq
            · rw [stateValAt_set_ne w p q _ hq]
              exact hw
          have hW1p : stateValAt W1 p = some (s.toState, v) := by
            rw [hW1def]
            exact stateValAt_set_self _ hl
          have c2 : TameStep W1 W2 := by
            rw [hW2def]
            exact tameStep_chainPhase f s v pr.chainedPromise pr.chainedPromises W1
              (fun c => ih.2 c s v)
          have hW2p : stateValAt W2 p = some (s.toState, v) :=
            c2.2.2.2 p s.toState v (Settled.toState_ne_pending s) hW1p
          have c3 : TameStep W2 W3 := by
            rw [hW3def]
            exact tameStep_handledPhase f s v pr.handledPromise pr.handledPromises W2
              (fun q => ih.1 q s v)
          have hW3p : stateValAt W3 p = some (s.toState, v) :=
            c3.2.2.2 p s.toState v (Settled.toState_ne_pending s) hW2p
          obtain ⟨pr3, hl3, hst3, hv3⟩ := lookup_of_stateValAt hW3p
          have tfin := tameStep_set_same
            { pr with
              state := s.toState, valueOrReason := v,
              onPreviousFulfilled := none, onPreviousRejected := none,
              chainedPromise := none,
              chainedPromises := if pr.chainedPromise.isSome then pr.chainedPromises else none,
              handledPromise := none,
              handledPromises := if pr.handledPromise.isSome then pr.handledPromises else none }
            hl3 hst3.symm hv3.symm
          exact TameStep.trans (TameStep.trans (TameStep.trans t1 c2) c3) tfin
        · exact TameStep.of_eq (relay_settled hl hst)
    exact ⟨hrel, tame_grab_of hrel⟩

theorem tame_relay (fuel p s v) : Tame (relay fuel p s v) := (tame_relay_grab fuel).1 p s v

theorem tame_grab (fuel p s v) : Tame (grab fuel p s v) := (tame_relay_grab fuel).2 p s v

theorem tame_grabList (fuel cs s v) : Tame (fun w => grabList fuel cs s v w) :=
  tame_grabList_of (fun c => tame_grab fuel c s v) cs

theorem tame_relayList (fuel qs s v) : Tame (fun w => relayList fuel qs s v w) :=
  tame_relayList_of (fun q => tame_relay fuel q s v) qs

/-!  ## Equation lemmas for the resolution procedure  -/

theorem unpack_undef (selfId k) (w : World) :
    unpack selfId .undef k w = k .fulfilled .undef w := by
  rw [unpack]

theorem unpack_num (selfId n k) (w : World) :
    unpack selfId (.num n) k w = k .fulfilled (.num n) w := by
  rw [unpack]

theorem unpack_str (selfId t k) (w : World) :
    unpack selfId (.str t) k w = k .fulfilled (.str t) w := by
  rw [unpack]

theorem unpack_err (selfId m k) (w : World) :
    unpack selfId (.err m) k w = k .fulfilled (.err m) w := by
  rw [unpack]

theorem unpack_ref (selfId id k) (w : World) :
    unpack selfId (.promiseRef id) k w =
      (if id = selfId then k .rejected selfResolutionError w
       else
         match w.promises[id]? with
         | none => w
         | some pr =>
           match pr.state with
           | .pending => registerHandled id selfId w
           | .fulfilled => k .fulfilled pr.valueOrReason w
           | .rejected => k .rejected pr.valueOrReason w) := by
  rw [unpack.eq_def]

theorem unpack_ref_self (selfId k) (w : World) :
    unpack selfId (.promiseRef selfId) k w = k .rejected selfResolutionError w := by
  rw [unpack_ref]
  simp

theorem unpack_ref_missing {selfId id k} {w : World} (hne : id ≠ selfId)
    (hl : w.promises[id]? = none) :
    unpack selfId (.promiseRef id) k w = w := by
  rw [unpack_ref]
  simp [hne, hl]

theorem unpack_ref_pending {selfId id k} {w : World} {pr : PromiseRec} (hne : id ≠ selfId)
    (hl : w.promises[id]? = some pr) (hp : pr.state = State.pending) :
    unpack selfId (.promiseRef id) k w = registerHandled id selfId w := by
  rw [unpack_ref]
  simp [hne, hl, hp]

theorem unpack_ref_fulfilled {selfId id k} {w : World} {pr : PromiseRec} (hne : id ≠ selfId)
    (hl : w.promises[id]? = some pr) (hp : pr.state = State.fulfilled) :
    unpack selfId (.promiseRef id) k w = k .fulfilled pr.valueOrReason w := by
  rw [unpack_ref]
  simp [hne, hl, hp]

theorem unpack_ref_rejected {selfId id k} {w : World} {pr : PromiseRec} (hne : id ≠ selfId)
    (hl : w.promises[id]? = some pr) (hp : pr.state = State.rejected) :
    unpack selfId (.promiseRef id) k w = k .rejected pr.valueOrReason w := by
  rw [unpack_ref]
  simp [hne, hl, hp]

theorem unpack_obj_noThen (selfId k) (w : World) :
    unpack selfId (.obj .noThen) k w = k .fulfilled (.obj .noThen) w := by
  rw [unpack]

theorem unpack_obj_getterThrows (selfId e k) (w : World) :
    unpack selfId (.obj (.thenGetterThrows e)) k w = k .rejected e w := by
  rw [unpack]

theorem unpack_obj_thenFn (selfId acts afterThrow k) (w : World) :
    unpack selfId (.obj (.thenFn acts afterThrow)) k w =
      (let r := runActions selfId acts true k w
       match afterThrow with
       | some e => if r.1 then k .rejected e r.2 else r.2
       | none => r.2) := by
  rw [unpack.eq_def]

theorem runActions_nil (selfId armed k) (w : World) :
    runActions selfId [] armed k w = (armed, w) := by
  rw [runActions]

theorem runActions_resolve_armed (selfId v rest k) (w : World) :
    runActions selfId (.callResolve v :: rest) true k w =
      runActions selfId rest false k (unpack selfId v k w) := by
  rw [runActions]
  simp

theorem runActions_resolve_idle (selfId v rest k) (w : World) :
    runActions selfId (.callResolve v :: rest) false k w =
      runActions selfId rest false k w := by
  rw [runActions]
  simp

theorem runActions_reject_armed (selfId r rest k) (w : World) :
    runActions selfId (.callReject r :: rest) true k w =
      runActions selfId rest false k (k .rejected r w) := by
  rw [runActions]
  simp

theorem runActions_reject_idle (selfId r rest k) (w : World) :
    runActions selfId (.callReject r :: rest) false k w =
      runActions selfId rest false k w := by
  rw [runActions]
  simp

/-!  ## Frame property of the resolution procedure  -/

mutual
theorem tame_unpack (selfId : Nat) (v : JSValue) (k : Cont)
    (hk : ∀ s u, Tame (k s u)) : Tame (unpack selfId v k) := by
  intro w
  match v with
  | .undef => rw [unpack_undef]; exact hk .fulfilled .undef w
  | .num n => rw [unpack_num]; exact hk .fulfilled (.num n) w
  | .str t => rw [unpack_str]; exact hk .fulfilled (.str t) w
  | .err m => rw [unpack_err]; exact hk .fulfilled (.err m) w
  | .promiseRef id =>
    by_cases hid : id = selfId
    · subst hid
      rw [unpack_ref_self]
      exact hk .rejected selfResolutionError w
    · rcases hl : w.promises[id]? with _ | pr
      · exact TameStep.of_eq (unpack_ref_missing hid hl)
      · rcases hstv : pr.state with _ | _ | _
        · rw [unpack_ref_pending hid hl hstv]
          exact tame_registerHandled id selfId w
        · rw [unpack_ref_fulfilled hid hl hstv]
          exact hk .fulfilled pr.valueOrReason w
        · rw [unpack_ref_rejected hid hl hstv]
          exact hk .rejected pr.valueOrReason w
  | .obj .noThen => rw [unpack_obj_noThen]; exact hk .fulfilled (.obj .noThen) w
  | .obj (.thenGetterThrows e) => rw [unpack_obj_getterThrows]; exact hk .rejected e w
  | .obj (.thenFn acts afterThrow) =>
    have hacts := tame_runActions selfId acts true k hk
    rw [unpack_obj_thenFn]
    rcases afterThrow with _ | e
    · exact hacts w
    · dsimp only
      by_cases hb : (runActions selfId acts true k w).1
      · rw [if_pos hb]
        exact TameStep.trans (hacts w) (hk .rejected e _)
      · rw [if_neg hb]
        exact hacts w
termination_by sizeOf v

theorem tame_runActions (selfId : Nat) (acts : List ThenAction) (armed : Bool) (k : Cont)
    (hk : ∀ s u, Tame (k s u)) : Tame (fun w => (runActions selfId acts armed k w).2) := by
  intro w
  show TameStep w (runActions selfId acts armed k w).2
  match acts, armed with
  | [], armed => exact TameStep.of_eq (by rw [runActions_nil])
  | .callResolve v :: rest, true =>
    have h1 := tame_unpack selfId v k hk
    have h2 := tame_runActions selfId rest false k hk
    rw [runActions_resolve_armed]
    exact TameStep.trans (h1 w) (h2 _)
  | .callResolve v :: rest, false =>
    have h2 := tame_runActions selfId rest false k hk
    rw [runActions_resolve_idle]
    exact h2 w
  | .callReject r :: rest, true =>
    have h2 := tame_runActions selfId rest false k hk
    rw [runActions_reject_armed]
    exact TameStep.trans (hk .rejected r w) (h2 _)
  | .callReject r :: rest, false =>
    have h2 := tame_runActions selfId rest false k hk
    rw [runActions_reject_idle]
    exact h2 w
termination_by sizeOf acts
end

/-!  ## Settlement lemmas  -/

theorem stateOf_valOf_of_stateValAt {w : World} {p : Nat} {st : State} {u : JSValue}
    (h : stateValAt w p = some (st, u)) : stateOf w p = some st ∧ valOf w p = some u := by
  obtain ⟨pr, hl, h1, h2⟩ := lookup_of_stateValAt h
  simp [stateOf, valOf, hl, h1, h2]

/-- A working `_relay` records exactly the delivered state and result
on its target, whatever the cascade does elsewhere. -/
theorem relay_sets {f p s v} {w : World} {pr : PromiseRec}
    (hl : w.promises[p]? = some pr) (hp : pr.state = State.pending) :
    stateValAt (relay (f + 1) p s v w) p = some (s.toState, v) := by
  rw [relay_pending_succ hl hp]
  dsimp only
  set W1 := setPromise w p { pr with state := s.toState, valueOrReason := v } with hW1def
  set W2 := (match pr.chainedPromise with
    | some c => grab f c s v W1
    | none =>
      match pr.chainedPromises with
      | some cs => grabList f cs s v W1
      | none => W1) with hW2def
  set W3 := (match pr.handledPromise with
    | some q => relay f q s v W2
    | none =>
      match pr.handledPromises with
      | some qs => relayList f qs s v W2
      | none => W2) with hW3def
  have hW1p : stateValAt W1 p = some (s.toState, v) := by
    rw [hW1def]
    exact stateValAt_set_self _ hl
  have c2 : TameStep W1 W2 := by
    rw [hW2def]
    exact tameStep_chainPhase f s v pr.chainedPromise pr.chainedPromises W1
      (fun c => tame_grab f c s v)
  have hW2p : stateValAt W2 p = some (s.toState, v) :=
    c2.2.2.2 p s.toState v (Settled.toState_ne_pending s) hW1p
  have c3 : TameStep W2 W3 := by
    rw [hW3def]
    exact tameStep_handledPhase f s v pr.handledPromise pr.handledPromises W2
      (fun q => tame_relay f q s v)
  have hW3p : stateValAt W3 p = some (s.toState, v) :=
    c3.2.2.2 p s.toState v (Settled.toState_ne_pending s) hW2p
  obtain ⟨pr3, hl3, _, _⟩ := lookup_of_stateValAt hW3p
  rw [stateValAt_set_self _ hl3]

/-- Applying `reject` to a pending promise with no rejection handler settles it
Rejected with the given reason. -/
theorem reject_pending_noRejHandler {w : World} {p : Nat} {r : JSValue} {pr : PromiseRec}
    (hl : w.promises[p]? = some pr) (hp : pr.state = State.pending)
    (hnr : pr.onPreviousRejected = none) :
    stateValAt (reject w p r) p = some (State.rejected, r) := by
  unfold reject
  rw [grab_pending_noHandler hl hp hnr]
  exact relay_sets hl hp

/-- Applying `reject` to a settled promise is a complete no-op. -/
theorem reject_settled {w : World} {p : Nat} {r : JSValue} {pr : PromiseRec}
    (hl : w.promises[p]? = some pr) (hp : pr.state ≠ State.pending) :
    reject w p r = w :=
  grab_settled hl hp

/-- Applying `grab` to a settled promise is a no-op; hence so is the `resolve`
continuation. -/
theorem resolveCont_settled {p : Nat} {s : Settled} {u : JSValue} {w : World}
    {pr : PromiseRec} (hl : w.promises[p]? = some pr) (hp : pr.state ≠ State.pending) :
    resolveCont p s u w = w :=
  grab_settled hl hp

theorem tame_resolveCont (p : Nat) (s : Settled) (u : JSValue) :
    Tame (resolveCont p s u) := by
  intro w
  exact tame_grab (w.promises.length + 1) p s u w

theorem tame_runCont (p : Nat) (s : Settled) (u : JSValue) : Tame (runCont p s u) := by
  intro w
  exact TameStep.trans (tame_relay (w.promises.length + 1) p s u w) (tame_clearRunning p _)

/-- The operation `resolve` is a frame step: in particular it can never alter the
state or result of any settled promise. -/
theorem tameStep_resolve (w : World) (p : Nat) (v : JSValue) :
    TameStep w (resolve w p v) :=
  tame_unpack p v (resolveCont p) (tame_resolveCont p) w

/-- The operation `reject` is a frame step. -/
theorem tameStep_reject (w : World) (p : Nat) (r : JSValue) :
    TameStep w (reject w p r) :=
  tame_grab (w.promises.length + 1) p .rejected r w

/-!  ## Task-queue lemmas  -/

theorem runTask_eq {w : World} {t : Task} {rest : List Task} (hw : w.tasks = t :: rest) :
    runTask w =
      (match t.handler t.arg with
       | .error e => clearRunning t.target
           (relay (w.promises.length + 1) t.target .rejected e
             { w with tasks := rest, log := w.log ++ [(t.target, t.arg)] })
       | .ok ret => unpack t.target ret (runCont t.target)
           { w with tasks := rest, log := w.log ++ [(t.target, t.arg)] }) := by
  simp only [runTask, hw]

/-- Executing the front task consumes it, logs the handler invocation,
may append new tasks, and preserves every settled promise. -/
theorem runTask_from {w : World} {t : Task} {rest : List Task} (hw : w.tasks = t :: rest) :
    (∃ ext, (runTask w).tasks = rest ++ ext) ∧
    (runTask w).log = w.log ++ [(t.target, t.arg)] ∧
    (runTask w).promises.length = w.promises.length ∧
    ∀ p st u, st ≠ State.pending → stateValAt w p = some (st, u) →
      stateValAt (runTask w) p = some (st, u) := by
  rw [runTask_eq hw]
  have hstep : TameStep { w with tasks := rest, log := w.log ++ [(t.target, t.arg)] }
      (match t.handler t.arg with
       | .error e => clearRunning t.target
           (relay (w.promises.length + 1) t.target .rejected e
             { w with tasks := rest, log := w.log ++ [(t.target, t.arg)] })
       | .ok ret => unpack t.target ret (runCont t.target)
           { w with tasks := rest, log := w.log ++ [(t.target, t.arg)] }) := by
    rcases t.handler t.arg with e | ret
    · exact TameStep.trans
        (tame_relay (w.promises.length + 1) t.target .rejected e _)
        (tame_clearRunning t.target _)
    · exact tame_unpack t.target ret (runCont t.target) (tame_runCont t.target) _
  obtain ⟨⟨ext, hext⟩, hlog, hlen, hsv⟩ := hstep
  refine ⟨⟨ext, by simpa using hext⟩, by simpa using hlog, by simpa using hlen, ?_⟩
  intro p st u hst hwp
  exact hsv p st u hst (by simpa [stateValAt] using hwp)

/-- Draining as many steps as there are queued tasks logs exactly
the handler invocations of those tasks, in FIFO order. -/
theorem drain_log :
    ∀ (ts : List Task) (w : World) (rest : List Task), w.tasks = ts ++ rest →
      (drain ts.length w).log = w.log ++ ts.map (fun t => (t.target, t.arg)) := by
  intro ts
  induction ts with
  | nil => intro w rest _; simp [drain]
  | cons t ts' ih =>
    intro w rest hw
    have hw' : w.tasks = t :: (ts' ++ rest) := by simpa using hw
    obtain ⟨⟨ext, hext⟩, hlog, _, _⟩ := runTask_from hw'
    have : (runTask w).tasks = ts' ++ (rest ++ ext) := by
      rw [hext, List.append_assoc]
    have hdrain : drain (t :: ts').length w = drain ts'.length (runTask w) := by
      simp [drain]
    rw [hdrain, ih (runTask w) (rest ++ ext) this, hlog]
    simp

/-!  ## Lemmas for the fan-out scenario (C7)  -/

theorem thenOp_chain_step (n : Nat) (ds : List PromiseRec) (h : Handler)
    (hd : ds.length = n) :
    thenOp ⟨chainRec (List.range' 1 n) :: ds, [], []⟩ 0 (.fn h) (.notFn .undef)
      = (⟨chainRec (List.range' 1 (n + 1)) :: (ds ++ [depRec h]), [], []⟩, n + 1) := by
  rcases n with _ | n
  · simp [thenOp, chainRec, chainedSingle, chainedMany, freshRec, depRec, setPromise,
      hd, List.set, List.range'_succ]
  · rcases n with _ | k
    · simp [thenOp, chainRec, chainedSingle, chainedMany, freshRec, depRec, setPromise,
        hd, List.set, List.range'_succ]
    · have hL : List.range' 1 (k + 2) = 1 :: 2 :: List.range' 3 k := by
        simp [List.range'_succ]
      have hL' : List.range' 1 (k + 3) = List.range' 1 (k + 2) ++ [k + 3] := by
        have h1 := @List.range'_concat 1 1 (k + 2)
        rw [show 1 + 1 * (k + 2) = k + 3 from by omega] at h1
        exact h1
      simp [thenOp, chainRec, chainedSingle, chainedMany, freshRec, depRec, setPromise,
        hd, List.set, hL, hL']

theorem attachAll_attached :
    ∀ (hs pre : List Handler),
      attachAll (attachedWorld pre) 0 hs
        = (attachedWorld (pre ++ hs), List.range' (pre.length + 1) hs.length) := by
  intro hs
  induction hs with
  | nil => intro pre; simp [attachAll]
  | cons h rest ih =>
    intro pre
    have hstep : thenOp (attachedWorld pre) 0 (.fn h) (.notFn .undef)
        = (attachedWorld (pre ++ [h]), pre.length + 1) := by
      have := thenOp_chain_step pre.length (pre.map depRec) h (by simp)
      simpa [attachedWorld] using this
    rw [attachAll, hstep]
    rw [ih (pre ++ [h])]
    simp [List.range'_succ]

/-- The chained-promises phase of `_relay` on slots representing the
abstract list `l` is the fold of `_grab` over `l`. -/
theorem chain_phase_eq (f : Nat) (s : Settled) (v : JSValue) (w1 : World) (l : List Nat) :
    (match chainedSingle l with
     | some c => grab f c s v w1
     | none =>
       match chainedMany l with
       | some cs => grabList f cs s v w1
       | none => w1) = grabList f l s v w1 := by
  match l with
  | [] => simp [chainedSingle, chainedMany, grabList_nil]
  | [c] => simp [chainedSingle, chainedMany, grabList_cons, grabList_nil]
  | c1 :: c2 :: rest => simp [chainedSingle, chainedMany]

/-- Folding `_grab` over pending promises that each carry a matching
fulfillment handler schedules one task per promise, in order, each
carrying the delivered value. -/
theorem grabList_schedule (f : Nat) (x : JSValue) :
    ∀ (ps : List (Nat × Handler)) (w : World),
      (∀ q ∈ ps, ∃ pr, w.promises[q.1]? = some pr ∧ pr.state = State.pending ∧
          pr.onPreviousFulfilled = some q.2) →
      (grabList f (ps.map Prod.fst) .fulfilled x w).tasks
          = w.tasks ++ ps.map (fun q => (⟨q.1, q.2, x⟩ : Task)) ∧
      (grabList f (ps.map Prod.fst) .fulfilled x w).log = w.log := by
  intro ps
  induction ps with
  | nil => intro w _; simp [grabList_nil]
  | cons q rest ih =>
    intro w hw
    obtain ⟨pr, hl, hp, hf⟩ := hw q (List.mem_cons_self q rest)
    rw [List.map_cons, grabList_cons]
    rw [grab_pending_handler hl hp hf]
    have hrun : run q.1 q.2 x w
        = { setPromise w q.1 { pr with running := true } with
            tasks := w.tasks ++ [⟨q.1, q.2, x⟩] } := by
      simp [run, hl, setPromise]
    rw [hrun]
    have hrest : ∀ q' ∈ rest, ∃ pr',
        ({ setPromise w q.1 { pr with running := true } with
           tasks := w.tasks ++ [(⟨q.1, q.2, x⟩ : Task)] } : World).promises[q'.1]? = some pr' ∧
        pr'.state = State.pending ∧ pr'.onPreviousFulfilled = some q'.2 := by
      intro q' hq'
      obtain ⟨pr', hl', hp', hf'⟩ := hw q' (List.mem_cons_of_mem _ hq')
      by_cases heq : q.1 = q'.1
      · refine ⟨{ pr with running := true }, ?_, hp, ?_⟩
        · have hlt := lt_length_of_lookup hl
          dsimp only [setPromise]
          rw [← heq]
          simp [List.getElem?_set, hlt]
        · have hpp : pr = pr' := by
            rw [heq] at hl
            rw [hl] at hl'
            exact Option.some.inj hl'
          show pr.onPreviousFulfilled = some q'.2
          rw [hpp]
          exact hf'
      · refine ⟨pr', ?_, hp', hf'⟩
        dsimp only [setPromise]
        rw [List.getElem?_set_ne heq]
        exact hl'
    obtain ⟨ht, hlg⟩ := ih _ hrest
    refine ⟨?_, ?_⟩
    · rw [ht]
      simp
    · rw [hlg]
      rfl

/-- Resolving the source of `attachedWorld hs` with a number schedules
exactly one task per attached handler, in attachment order, each
carrying that number; nothing is logged yet. -/
theorem resolve_attached (hs : List Handler) (n : Int) :
    (resolve (attachedWorld hs) 0 (.num n)).tasks
        = hs.enum.map (fun p => (⟨p.1 + 1, p.2, .num n⟩ : Task)) ∧
    (resolve (attachedWorld hs) 0 (.num n)).log = [] := by
  have hl : (attachedWorld hs).promises[0]?
      = some (chainRec (List.range' 1 hs.length)) := by
    simp [attachedWorld]
  have hids : List.range' 1 hs.length
      = (hs.enum.map (fun p => (p.1 + 1, p.2))).map Prod.fst := by
    rw [List.range'_eq_map_range, ← List.enum_map_fst hs, List.map_map, List.map_map]
    simp [Function.comp, Nat.add_comm]
  have hyp : ∀ q ∈ hs.enum.map (fun p => (p.1 + 1, p.2)), ∃ pr,
      (setPromise (attachedWorld hs) 0
        { chainRec (List.range' 1 hs.length) with
          state := Settled.fulfilled.toState,
          valueOrReason := .num n }).promises[q.1]? = some pr ∧
      pr.state = State.pending ∧ pr.onPreviousFulfilled = some q.2 := by
    intro q hq
    obtain ⟨p0, hp0, hq0⟩ := List.mem_map.mp hq
    obtain ⟨i, v⟩ := p0
    have hget : hs[i]? = some v := List.mem_enum_iff_getElem?.mp hp0
    refine ⟨depRec v, ?_, rfl, ?_⟩
    · subst hq0
      simp [setPromise, attachedWorld, List.set, List.getElem?_map, hget]
    · subst hq0
      rfl
  obtain ⟨htask, hlog⟩ := grabList_schedule ((attachedWorld hs).promises.length)
    (.num n) (hs.enum.map (fun p => (p.1 + 1, p.2))) _ hyp
  rw [← hids] at htask hlog
  unfold resolve
  rw [unpack_num]
  show (grab ((attachedWorld hs).promises.length + 1) 0 .fulfilled (.num n)
      (attachedWorld hs)).tasks
        = hs.enum.map (fun p => (⟨p.1 + 1, p.2, .num n⟩ : Task)) ∧
    (grab ((attachedWorld hs).promises.length + 1) 0 .fulfilled (.num n)
      (attachedWorld hs)).log = []
  rw [grab_pending_noHandler hl rfl rfl]
  rw [relay_pending_succ hl rfl]
  dsimp only
  rw [show (chainRec (List.range' 1 hs.length)).chainedPromise
      = chainedSingle (List.range' 1 hs.length) from rfl]
  rw [show (chainRec (List.range' 1 hs.length)).chainedPromises
      = chainedMany (List.range' 1 hs.length) from rfl]
  rw [chain_phase_eq]
  rw [show (chainRec (List.range' 1 hs.length)).handledPromise = none from rfl]
  rw [show (chainRec (List.range' 1 hs.length)).handledPromises = none from rfl]
  dsimp only
  constructor
  · exact htask.trans (by rw [List.map_map]; simp [setPromise, attachedWorld, Function.comp])
  · exact hlog.trans rfl

/-!  ## Claims  -/

/-- Claim C1: for every future, settlement happens at most once and is
monotonic: once a future is settled with state `st` and result `u`,
any later `resolve` or `reject` call on it leaves its state and result
exactly as the first settlement set them (the model is total, so no
error is raised). -/
theorem C1_settle_at_most_once (w : World) (p : Nat) (st : State) (u r v : JSValue)
    (hst : stateOf w p = some st) (hu : valOf w p = some u) (hpend : st ≠ State.pending) :
    (stateOf (reject w p r) p = some st ∧ valOf (reject w p r) p = some u) ∧
    (stateOf (resolve w p v) p = some st ∧ valOf (resolve w p v) p = some u) := by
  have hsv : stateValAt w p = some (st, u) := by
    rcases hl : w.promises[p]? with _ | pr
    · rw [stateOf, hl] at hst
      exact Option.noConfusion hst
    · rw [stateOf, hl] at hst
      rw [valOf, hl] at hu
      simp at hst hu
      simp [stateValAt, hl, hst, hu]
  have h1 := (tameStep_reject w p r).2.2.2 p st u hpend hsv
  have h2 := (tameStep_resolve w p v).2.2.2 p st u hpend hsv
  exact ⟨stateOf_valOf_of_stateValAt h1, stateOf_valOf_of_stateValAt h2⟩

/-- Witness for C1 at a concrete settled future. -/
theorem C1_settle_at_most_once_witness :
    (stateOf (reject fulfilled5World 0 (.str ("late"))) 0 = some State.fulfilled ∧
     valOf (reject fulfilled5World 0 (.str ("late"))) 0 = some (.num 5)) ∧
    (stateOf (resolve fulfilled5World 0 (.num 9)) 0 = some State.fulfilled ∧
     valOf (resolve fulfilled5World 0 (.num 9)) 0 = some (.num 5)) :=
  C1_settle_at_most_once fulfilled5World 0 State.fulfilled (.num 5) (.str ("late")) (.num 9)
    (by simp [fulfilled5World, stateOf]) (by simp [fulfilled5World, valOf]) (by simp)

/-- Counterexample to claim C2: `reject` goes through `_grab`, which
runs a registered rejection handler instead of rejecting directly.  On
a pending future carrying a rejection handler returning `42`,
`reject(7)` leaves the future pending (a task is queued), and after the
queued handler runs the future is *fulfilled* with `42`, not rejected
with `7`. -/
theorem C2_counterexample :
    stateOf (reject rejHandlerWorld 0 (.num 7)) 0 = some State.pending ∧
    stateOf (reject rejHandlerWorld 0 (.num 7)) 0 ≠ some State.rejected ∧
    stateOf (drain 1 (reject rejHandlerWorld 0 (.num 7))) 0 = some State.fulfilled ∧
    valOf (drain 1 (reject rejHandlerWorld 0 (.num 7))) 0 = some (.num 42) ∧
    stateOf (drain 1 (reject rejHandlerWorld 0 (.num 7))) 0 ≠ some State.rejected := by
  simp [reject, resolve, grab, relay, grabList, relayList, run, unpack, runActions,
    runCont, resolveCont, clearRunning, drain, runTask, setPromise, registerHandled,
    stateOf, valOf, freshRec, rejHandlerWorld, Settled.toState, List.set]

/-- Claim C2 as amended: `reject(reason)` moves a pending future that
carries no rejection handler to Rejected with that reason (a
fulfillment handler does not interfere); on an already terminal future
the call is a complete no-op. -/
theorem C2_amended_reject (w : World) (p : Nat) (r : JSValue) :
    (∀ pr, w.promises[p]? = some pr → pr.state = State.pending →
       pr.onPreviousRejected = none →
       stateOf (reject w p r) p = some State.rejected ∧
       valOf (reject w p r) p = some r) ∧
    (∀ pr, w.promises[p]? = some pr → pr.state ≠ State.pending → reject w p r = w) := by
  constructor
  · intro pr hl hp hnr
    exact stateOf_valOf_of_stateValAt (reject_pending_noRejHandler hl hp hnr)
  · intro pr hl hp
    exact reject_settled hl hp

/-- Witness for the amended C2 at concrete futures. -/
theorem C2_amended_reject_witness :
    (stateOf (reject oneFresh 0 (.num 7)) 0 = some State.rejected ∧
     valOf (reject oneFresh 0 (.num 7)) 0 = some (.num 7)) ∧
    reject fulfilled5World 0 (.num 7) = fulfilled5World :=
  ⟨(C2_amended_reject oneFresh 0 (.num 7)).1 freshRec (by simp [oneFresh]) rfl rfl,
   (C2_amended_reject fulfilled5World 0 (.num 7)).2
     { freshRec with state := .fulfilled, valueOrReason := .num 5 }
     (by simp [fulfilled5World]) (by simp)⟩

/-- Counterexample to claim C3: resolving a future with itself does
*not* reject it regardless of prior state.  On an already fulfilled
future the self-resolution is a no-op (first settlement wins), and on
a pending future carrying a rejection handler the synthesized type
error is fed to that handler instead, here yielding fulfillment with
`42`. -/
theorem C3_counterexample :
    stateOf (resolve fulfilled5World 0 (.promiseRef 0)) 0 = some State.fulfilled ∧
    valOf (resolve fulfilled5World 0 (.promiseRef 0)) 0 = some (.num 5) ∧
    stateOf (resolve fulfilled5World 0 (.promiseRef 0)) 0 ≠ some State.rejected ∧
    stateOf (drain 1 (resolve rejHandlerWorld 0 (.promiseRef 0))) 0 = some State.fulfilled ∧
    valOf (drain 1 (resolve rejHandlerWorld 0 (.promiseRef 0))) 0 = some (.num 42) := by
  simp [reject, resolve, grab, relay, grabList, relayList, run, unpack, runActions,
    runCont, resolveCont, clearRunning, drain, runTask, setPromise, registerHandled,
    stateOf, valOf, freshRec, fulfilled5World, rejHandlerWorld, Settled.toState,
    selfResolutionError, List.set]

/-- Claim C3 as amended: resolving a *pending* future that carries no
rejection handler with itself settles it Rejected with the synthesized
type-error reason; on an already terminal future the call is a
complete no-op. -/
theorem C3_amended_self_resolution (w : World) (p : Nat) :
    (∀ pr, w.promises[p]? = some pr → pr.state = State.pending →
       pr.onPreviousRejected = none →
       stateOf (resolve w p (.promiseRef p)) p = some State.rejected ∧
       valOf (resolve w p (.promiseRef p)) p = some selfResolutionError) ∧
    (∀ pr, w.promises[p]? = some pr → pr.state ≠ State.pending →
       resolve w p (.promiseRef p) = w) := by
  constructor
  · intro pr hl hp hnr
    unfold resolve
    rw [unpack_ref_self]
    have h1 : resolveCont p .rejected selfResolutionError w
        = relay (w.promises.length + 1) p .rejected selfResolutionError w := by
      unfold resolveCont
      exact grab_pending_noHandler hl hp hnr
    rw [h1]
    exact stateOf_valOf_of_stateValAt (relay_sets hl hp)
  · intro pr hl hp
    unfold resolve
    rw [unpack_ref_self]
    exact resolveCont_settled hl hp

/-- Witness for the amended C3 at concrete futures. -/
theorem C3_amended_self_resolution_witness :
    (stateOf (resolve oneFresh 0 (.promiseRef 0)) 0 = some State.rejected ∧
     valOf (resolve oneFresh 0 (.promiseRef 0)) 0 = some selfResolutionError) ∧
    resolve fulfilled5World 0 (.promiseRef 0) = fulfilled5World :=
  ⟨(C3_amended_self_resolution oneFresh 0).1 freshRec (by simp [oneFresh]) rfl rfl,
   (C3_amended_self_resolution fulfilled5World 0).2
     { freshRec with state := .fulfilled, valueOrReason := .num 5 }
     (by simp [fulfilled5World]) (by simp)⟩

/-- Claim C5: when the resolution procedure adopts a foreign
then-shaped object, only the first callback invocation has any effect:
(a) fulfill then reject delivers only the fulfillment; (b) reject then
fulfill delivers only the rejection; (c) fulfilling twice delivers the
first value; (d) a throw after a callback ran is ignored; (e) a throw
while obtaining `then` rejects with the thrown value; (f) a throw
while invoking `then` before any callback ran rejects with the thrown
value. -/
theorem C5_foreign_first_callback_wins (n m : Int) (r e : JSValue) :
    (stateOf (resolve oneFresh 0
        (.obj (.thenFn [.callResolve (.num n), .callReject r] none))) 0
        = some State.fulfilled ∧
     valOf (resolve oneFresh 0
        (.obj (.thenFn [.callResolve (.num n), .callReject r] none))) 0
        = some (.num n)) ∧
    (stateOf (resolve oneFresh 0
        (.obj (.thenFn [.callReject r, .callResolve (.num n)] none))) 0
        = some State.rejected ∧
     valOf (resolve oneFresh 0
        (.obj (.thenFn [.callReject r, .callResolve (.num n)] none))) 0
        = some r) ∧
    (stateOf (resolve oneFresh 0
        (.obj (.thenFn [.callResolve (.num n), .callResolve (.num m)] none))) 0
        = some State.fulfilled ∧
     valOf (resolve oneFresh 0
        (.obj (.thenFn [.callResolve (.num n), .callResolve (.num m)] none))) 0
        = some (.num n)) ∧
    (stateOf (resolve oneFresh 0
        (.obj (.thenFn [.callResolve (.num n)] (some e)))) 0
        = some State.fulfilled ∧
     valOf (resolve oneFresh 0
        (.obj (.thenFn [.callResolve (.num n)] (some e)))) 0
        = some (.num n)) ∧
    (stateOf (resolve oneFresh 0 (.obj (.thenGetterThrows e))) 0
        = some State.rejected ∧
     valOf (resolve oneFresh 0 (.obj (.thenGetterThrows e))) 0 = some e) ∧
    (stateOf (resolve oneFresh 0 (.obj (.thenFn [] (some e)))) 0
        = some State.rejected ∧
     valOf (resolve oneFresh 0 (.obj (.thenFn [] (some e)))) 0 = some e) := by
  simp [reject, resolve, grab, relay, grabList, relayList, run, unpack, runActions,
    runCont, resolveCont, clearRunning, drain, runTask, setPromise, registerHandled,
    stateOf, valOf, freshRec, oneFresh, Settled.toState, List.set]

/-- Claim C9: a `resolve` whose value cannot deliver yet does not lock
the future.  (a) After resolving promise 0 with the still-pending
engine promise 1, promise 0 is still pending; a later `reject r`
settles it Rejected with `r`, and when promise 1 later fulfills the
adoption relay is ignored.  (b) Symmetrically, a later plain `resolve`
wins and promise 1 settling afterwards is ignored.  (c) After a
resolve with a foreign object that never invoked a callback the future
is still pending, a later `reject r` wins, and the earlier
eventual delivery of the earlier resolution (its armed fulfill callback runs the
same `_unpack`-with-`_grab` path as a fresh `resolve`) is ignored. -/
theorem C9_pending_resolution_does_not_lock (m : Int) (r : JSValue) :
    (stateOf (resolve twoFresh 0 (.promiseRef 1)) 0 = some State.pending ∧
     stateOf (reject (resolve twoFresh 0 (.promiseRef 1)) 0 r) 0
        = some State.rejected ∧
     stateOf (resolve (reject (resolve twoFresh 0 (.promiseRef 1)) 0 r) 1 (.num m)) 0
        = some State.rejected ∧
     valOf (resolve (reject (resolve twoFresh 0 (.promiseRef 1)) 0 r) 1 (.num m)) 0
        = some r ∧
     stateOf (resolve (reject (resolve twoFresh 0 (.promiseRef 1)) 0 r) 1 (.num m)) 1
        = some State.fulfilled) ∧
    (stateOf (resolve (resolve twoFresh 0 (.promiseRef 1)) 0 (.num m)) 0
        = some State.fulfilled ∧
     stateOf (reject (resolve (resolve twoFresh 0 (.promiseRef 1)) 0 (.num m)) 1 r) 0
        = some State.fulfilled ∧
     valOf (reject (resolve (resolve twoFresh 0 (.promiseRef 1)) 0 (.num m)) 1 r) 0
        = some (.num m) ∧
     stateOf (reject (resolve (resolve twoFresh 0 (.promiseRef 1)) 0 (.num m)) 1 r) 1
        = some State.rejected) ∧
    (resolve oneFresh 0 (.obj (.thenFn [] none)) = oneFresh ∧
     stateOf (reject (resolve oneFresh 0 (.obj (.thenFn [] none))) 0 r) 0
        = some State.rejected ∧
     stateOf (resolve (reject (resolve oneFresh 0 (.obj (.thenFn [] none))) 0 r) 0
        (.num m)) 0 = some State.rejected ∧
     valOf (resolve (reject (resolve oneFresh 0 (.obj (.thenFn [] none))) 0 r) 0
        (.num m)) 0 = some r) := by
  simp [reject, resolve, grab, relay, grabList, relayList, run, unpack, runActions,
    runCont, resolveCont, clearRunning, drain, runTask, setPromise, registerHandled,
    stateOf, valOf, freshRec, oneFresh, twoFresh, Settled.toState, List.set]

/-- Claim C4: a handler returning the still-pending promise 1 leaves
its dependent (promise 3) pending until promise 1 settles; promise 1
itself then resolves with the still-pending promise 2 (transitive
adoption), and when promise 2 is rejected with `r` the whole adoption
chain (2, then 1, then 3) settles Rejected with `r` directly — no task
is scheduled, so the own handlers of the dependent (in particular the
arbitrary rejection handler `h2`) are never consulted. -/
theorem C4_adoption_transitive (n : Int) (r : JSValue) (h2 : Handler) :
    (thenOp adoptBase 0 (.fn (fun _ => .ok (.promiseRef 1))) (.fn h2)).2 = 3 ∧
    (let w1 := (thenOp adoptBase 0 (.fn (fun _ => .ok (.promiseRef 1))) (.fn h2)).1
     let wB := runTask (resolve w1 0 (.num n))
     let wC := resolve wB 1 (.promiseRef 2)
     let wD := reject wC 2 r
     stateOf wB 3 = some State.pending ∧
     stateOf wC 3 = some State.pending ∧
     stateOf wC 1 = some State.pending ∧
     stateOf wD 3 = some State.rejected ∧ valOf wD 3 = some r ∧
     stateOf wD 1 = some State.rejected ∧ valOf wD 1 = some r ∧
     stateOf wD 2 = some State.rejected ∧ valOf wD 2 = some r ∧
     wD.tasks = []) := by
  simp [reject, resolve, grab, relay, grabList, relayList, run, unpack, runActions,
    runCont, resolveCont, clearRunning, drain, runTask, thenOp, setPromise,
    registerHandled, stateOf, valOf, freshRec, adoptBase, Settled.toState, List.set]

/-- Claim C6: a handler that throws `E` settles the dependent Rejected
with exactly `E`; a handler that returns normally has its return value
passed through the resolution procedure, whose outcome settles the
dependent (shown literally, and concretely for a plain numeric return,
which fulfills the dependent with that number). -/
theorem C6_handler_throw_and_return (h : Handler) (n : Int) :
    (∀ e, h (.num n) = Except.error e →
        stateOf (runTask (resolve (thenOp oneFresh 0 (.fn h) (.notFn .undef)).1 0 (.num n))) 1
          = some State.rejected ∧
        valOf (runTask (resolve (thenOp oneFresh 0 (.fn h) (.notFn .undef)).1 0 (.num n))) 1
          = some e) ∧
    (∀ m : Int, h (.num n) = Except.ok (.num m) →
        stateOf (runTask (resolve (thenOp oneFresh 0 (.fn h) (.notFn .undef)).1 0 (.num n))) 1
          = some State.fulfilled ∧
        valOf (runTask (resolve (thenOp oneFresh 0 (.fn h) (.notFn .undef)).1 0 (.num n))) 1
          = some (.num m)) ∧
    (∀ ret, h (.num n) = Except.ok ret →
        runTask (resolve (thenOp oneFresh 0 (.fn h) (.notFn .undef)).1 0 (.num n))
          = unpack 1 ret (runCont 1)
              { resolve (thenOp oneFresh 0 (.fn h) (.notFn .undef)).1 0 (.num n) with
                tasks := [], log := [(1, .num n)] }) := by
  refine ⟨?_, ?_, ?_⟩
  · intro e he
    simp [reject, resolve, grab, relay, grabList, relayList, run, unpack, runActions,
      runCont, resolveCont, clearRunning, drain, runTask, thenOp, setPromise,
      registerHandled, stateOf, valOf, freshRec, oneFresh, Settled.toState, List.set, he]
  · intro m hm
    simp [reject, resolve, grab, relay, grabList, relayList, run, unpack, runActions,
      runCont, resolveCont, clearRunning, drain, runTask, thenOp, setPromise,
      registerHandled, stateOf, valOf, freshRec, oneFresh, Settled.toState, List.set, hm]
  · intro ret hret
    simp [reject, resolve, grab, relay, grabList, relayList, run,
      runCont, resolveCont, clearRunning, drain, runTask, thenOp, setPromise,
      registerHandled, stateOf, valOf, freshRec, oneFresh, Settled.toState, List.set,
      hret, unpack_num, unpack_ref_self]

/-- Witness for C6 with a concrete throwing handler and a concrete
returning handler. -/
theorem C6_handler_throw_and_return_witness :
    (stateOf (runTask (resolve
        (thenOp oneFresh 0 (.fn (fun _ => Except.error (.str ("boom")))) (.notFn .undef)).1
        0 (.num 0))) 1 = some State.rejected ∧
     valOf (runTask (resolve
        (thenOp oneFresh 0 (.fn (fun _ => Except.error (.str ("boom")))) (.notFn .undef)).1
        0 (.num 0))) 1 = some (.str ("boom"))) ∧
    (stateOf (runTask (resolve
        (thenOp oneFresh 0 (.fn (fun _ => Except.ok (.num 42))) (.notFn .undef)).1
        0 (.num 0))) 1 = some State.fulfilled ∧
     valOf (runTask (resolve
        (thenOp oneFresh 0 (.fn (fun _ => Except.ok (.num 42))) (.notFn .undef)).1
        0 (.num 0))) 1 = some (.num 42)) :=
  ⟨(C6_handler_throw_and_return (fun _ => Except.error (.str ("boom"))) 0).1
      (.str ("boom")) rfl,
   (C6_handler_throw_and_return (fun _ => Except.ok (.num 42)) 0).2.1 42 rfl⟩

/-- Claim C8: a non-invocable handler argument is treated as absent
(the `then` call is insensitive to which non-invocable values were
passed), and a predecessor settling to a kind with no matching handler
passes its state and result through unchanged to the successor — in
particular a rejection propagates unchanged (and synchronously, with
no task scheduled) past a `then` that registered only a fulfillment
handler. -/
theorem C8_non_invocable_and_passthrough (w : World) (src : Nat) (a b : JSValue)
    (hf : Handler) (r : JSValue) :
    thenOp w src (.notFn a) (.notFn b) = thenOp w src (.notFn .undef) (.notFn .undef) ∧
    ((thenOp oneFresh 0 (.fn hf) (.notFn .undef)).2 = 1 ∧
     stateOf (reject (thenOp oneFresh 0 (.fn hf) (.notFn .undef)).1 0 r) 1
        = some State.rejected ∧
     valOf (reject (thenOp oneFresh 0 (.fn hf) (.notFn .undef)).1 0 r) 1 = some r ∧
     (reject (thenOp oneFresh 0 (.fn hf) (.notFn .undef)).1 0 r).tasks = []) := by
  refine ⟨rfl, ?_⟩
  simp [reject, resolve, grab, relay, grabList, relayList, run, unpack, runActions,
    runCont, resolveCont, clearRunning, drain, runTask, thenOp, setPromise,
    registerHandled, stateOf, valOf, freshRec, oneFresh, Settled.toState, List.set]

/-- Claim C10: attaching to an already settled future with no handler
matching the settled kind leaves the returned future already settled
with the state and result of the source when `then` returns, with no task
queued — (a) a rejected source with only a fulfillment handler, (b) any
settled source with no invocable handlers — whereas (c) a matching
handler leaves the returned future pending with exactly one queued
handler-invocation task. -/
theorem C10_settled_attach_passthrough_is_synchronous (s : Settled) (v : JSValue)
    (hf hr : Handler) :
    (stateOf (thenOp ⟨[{ freshRec with state := State.rejected, valueOrReason := v }], [], []⟩
        0 (.fn hf) (.notFn .undef)).1 1 = some State.rejected ∧
     valOf (thenOp ⟨[{ freshRec with state := State.rejected, valueOrReason := v }], [], []⟩
        0 (.fn hf) (.notFn .undef)).1 1 = some v ∧
     (thenOp ⟨[{ freshRec with state := State.rejected, valueOrReason := v }], [], []⟩
        0 (.fn hf) (.notFn .undef)).1.tasks = []) ∧
    (stateOf (thenOp ⟨[{ freshRec with state := s.toState, valueOrReason := v }], [], []⟩
        0 (.notFn .undef) (.notFn .undef)).1 1 = some s.toState ∧
     valOf (thenOp ⟨[{ freshRec with state := s.toState, valueOrReason := v }], [], []⟩
        0 (.notFn .undef) (.notFn .undef)).1 1 = some v ∧
     (thenOp ⟨[{ freshRec with state := s.toState, valueOrReason := v }], [], []⟩
        0 (.notFn .undef) (.notFn .undef)).1.tasks = []) ∧
    (stateOf (thenOp ⟨[{ freshRec with state := s.toState, valueOrReason := v }], [], []⟩
        0 (.fn hf) (.fn hr)).1 1 = some State.pending ∧
     (thenOp ⟨[{ freshRec with state := s.toState, valueOrReason := v }], [], []⟩
        0 (.fn hf) (.fn hr)).1.tasks
        = [⟨1, match s with | .fulfilled => hf | .rejected => hr, v⟩]) := by
  cases s <;>
    simp [reject, resolve, grab, relay, grabList, relayList, run, unpack, runActions,
      runCont, resolveCont, clearRunning, drain, runTask, thenOp, setPromise,
      registerHandled, stateOf, valOf, freshRec, Settled.toState, List.set]

/-- Claim C7: attaching `N` fulfillment handlers to one pending future
(one `then` call each, creating the dependents `1..N` in order) and
then fulfilling it with the number `n` schedules exactly one
handler-invocation task per handler, in attachment order, each
carrying `n`; draining the queue then invokes every handler exactly
once, in that order, each receiving exactly `n` (the ghost log records
one entry per invocation). -/
theorem C7_fanout_in_attachment_order (hs : List Handler) (n : Int) :
    (attachAll oneFresh 0 hs).2 = List.range' 1 hs.length ∧
    (resolve (attachAll oneFresh 0 hs).1 0 (.num n)).tasks
        = hs.enum.map (fun p => (⟨p.1 + 1, p.2, .num n⟩ : Task)) ∧
    (drain hs.length (resolve (attachAll oneFresh 0 hs).1 0 (.num n))).log
        = hs.enum.map (fun p => ((p.1 + 1 : Nat), JSValue.num n)) := by
  have hA : attachAll oneFresh 0 hs = (attachedWorld hs, List.range' 1 hs.length) := by
    have h0 : attachedWorld ([] : List Handler) = oneFresh := rfl
    have := attachAll_attached hs []
    rw [h0] at this
    simpa using this
  rw [hA]
  obtain ⟨ht, hlg⟩ := resolve_attached hs n
  refine ⟨rfl, ht, ?_⟩
  have hlen : hs.length
      = (hs.enum.map (fun p => (⟨p.1 + 1, p.2, .num n⟩ : Task))).length := by
    simp
  rw [hlen]
  have hdl := drain_log (hs.enum.map (fun p => (⟨p.1 + 1, p.2, .num n⟩ : Task)))
    (resolve (attachedWorld hs) 0 (.num n)) [] (by rw [ht]; simp)
  rw [hdl, hlg, List.map_map]
  rfl

end ThenFail
